import Mathlib

/-!
Verification of the alerting core of the bf1942-map-alert Discord bot
(`src/cogs/subscriptions.py`, `src/cogs/watchlist.py`, `src/core/database.py`,
`src/utils/dnd.py`) against its natural-language specification.

Python dicts are embedded as association lists (`assocInsert` replaces the
value of an existing key in place, otherwise appends), Python sets as lists
of names, `datetime` instants as a record carrying a minute timestamp
together with its UTC hour and weekday, and SQL tables as lists of rows.
Delivery (`_send_alert` / `user.send`) is embedded as an oracle telling
whether the send raises; a "delivery attempt" is recorded whenever the
code reaches the send call.
-/

namespace BF1942

/-! ## Association lists (Python `dict` embedding) -/

/-- First value stored under key `k`, like `d.get(k)` on a Python dict
(whose keys are unique). -/
def assocFind {β α : Type} [DecidableEq β] (k : β) : List (β × α) → Option α
  | [] => none
  | (k₁, v) :: rest => if k₁ = k then some v else assocFind k rest

/-- `d[k] = v` on a Python dict: replace the value of the (unique) existing
key in place, otherwise append the new binding at the end. -/
def assocInsert {β α : Type} [DecidableEq β] (k : β) (v : α) :
    List (β × α) → List (β × α)
  | [] => [(k, v)]
  | (k₁, v₁) :: rest =>
    if k₁ = k then (k, v) :: rest else (k₁, v₁) :: assocInsert k v rest

theorem assocFind_insert_self {β α : Type} [DecidableEq β] (k : β) (v : α)
    (d : List (β × α)) : assocFind k (assocInsert k v d) = some v := by
  induction d with
  | nil => simp [assocInsert, assocFind]
  | cons hd tl ih =>
    obtain ⟨k₁, v₁⟩ := hd
    rw [assocInsert]
    by_cases h : k₁ = k
    · simp [assocFind, h]
    · simp only [if_neg h]
      rw [assocFind, if_neg h]
      exact ih

theorem assocFind_insert_ne {β α : Type} [DecidableEq β] (k k₂ : β) (v : α)
    (d : List (β × α)) (hne : k₂ ≠ k) :
    assocFind k₂ (assocInsert k v d) = assocFind k₂ d := by
  induction d with
  | nil =>
    simp only [assocInsert, assocFind]
    rw [if_neg (fun hk => hne hk.symm)]
  | cons hd tl ih =>
    obtain ⟨k₁, v₁⟩ := hd
    rw [assocInsert]
    by_cases h : k₁ = k
    · rw [if_pos h, assocFind, assocFind, if_neg (fun hk => hne hk.symm),
        if_neg (fun hk => hne (h ▸ hk).symm)]
    · rw [if_neg h, assocFind, assocFind]
      split
      · rfl
      · exact ih

/-- Keys of an association list. -/
def assocKeys {β α : Type} [DecidableEq β] (d : List (β × α)) : List β :=
  d.map Prod.fst

theorem assocFind_eq_none_iff {β α : Type} [DecidableEq β] (k : β)
    (d : List (β × α)) : assocFind k d = none ↔ k ∉ assocKeys d := by
  induction d with
  | nil => simp [assocFind, assocKeys]
  | cons hd tl ih =>
    rw [assocFind, assocKeys]
    by_cases h : hd.1 = k
    · simp [h]
    · simp only [if_neg h, List.map_cons, List.mem_cons]
      rw [ih]
      unfold assocKeys
      constructor
      · rintro hk (h1 | h2)
        · exact h h1.symm
        · exact hk h2
      · intro hk
        exact fun h2 => hk (Or.inr h2)

theorem assocFind_isSome_of_mem_keys {β α : Type} [DecidableEq β] (k : β)
    (d : List (β × α)) (h : k ∈ assocKeys d) :
    (assocFind k d).isSome := by
  cases hf : assocFind k d with
  | none => exact absurd h ((assocFind_eq_none_iff k d).mp hf)
  | some v => rfl

theorem mem_keys_of_assocFind_eq_some {β α : Type} [DecidableEq β] (k : β)
    (v : α) (d : List (β × α)) (h : assocFind k d = some v) :
    k ∈ assocKeys d := by
  by_contra hk
  rw [(assocFind_eq_none_iff k d).mpr hk] at h
  exact Option.noConfusion h

theorem assocKeys_insert {β α : Type} [DecidableEq β] (k : β) (v : α)
    (d : List (β × α)) :
    assocKeys (assocInsert k v d) =
      if k ∈ assocKeys d then assocKeys d else assocKeys d ++ [k] := by
  induction d with
  | nil => simp [assocInsert, assocKeys]
  | cons hd tl ih =>
    obtain ⟨k₁, v₁⟩ := hd
    rw [assocInsert]
    by_cases h : k₁ = k
    · subst h
      simp [assocKeys]
    · rw [if_neg h]
      unfold assocKeys at ih ⊢
      simp only [List.map_cons, ih, List.mem_cons]
      by_cases hm : k ∈ List.map Prod.fst tl
      · rw [if_pos hm, if_pos (Or.inr hm)]
      · rw [if_neg hm, if_neg (by rintro (h1 | h2); exact h h1.symm; exact hm h2)]
        rfl

theorem assocKeys_insert_nodup {β α : Type} [DecidableEq β] (k : β) (v : α)
    (d : List (β × α)) (h : (assocKeys d).Nodup) :
    (assocKeys (assocInsert k v d)).Nodup := by
  rw [assocKeys_insert]
  split
  · exact h
  · rw [List.nodup_append]
    refine ⟨h, List.nodup_singleton k, ?_⟩
    intro a ha hk
    rw [List.mem_singleton] at hk
    subst hk
    exact (by assumption : ¬a ∈ assocKeys d) ha

/-- `foldl`-inserting a list of bindings with distinct keys looks bindings up
in that list first, falling back to the initial dictionary. -/
theorem assocFind_foldl_insert {β α : Type} [DecidableEq β]
    (entries : List (β × α)) (st : List (β × α)) (k : β)
    (h : (assocKeys entries).Nodup) :
    assocFind k (entries.foldl (fun s kv => assocInsert kv.1 kv.2 s) st) =
      ((assocFind k entries).map some).getD (assocFind k st) := by
  induction entries generalizing st with
  | nil => simp [assocFind]
  | cons hd tl ih =>
    obtain ⟨k₁, v₁⟩ := hd
    unfold assocKeys at h
    simp only [List.map_cons, List.nodup_cons] at h
    rw [List.foldl_cons, ih _ (h.2), assocFind]
    by_cases hk : k₁ = k
    · subst hk
      cases hf : assocFind k₁ tl with
      | none => simp [assocFind_insert_self]
      | some v =>
        exact absurd (mem_keys_of_assocFind_eq_some k₁ v tl hf) h.1
    · rw [if_neg hk, assocFind_insert_ne _ _ _ _ (fun hkk => hk hkk.symm)]

/-- Build a Python dict from a list of rows keyed by `key` (later rows
overwrite earlier values, as in a dict comprehension). -/
def dictBy {α : Type} (key : α → String) (rows : List α) :
    List (String × α) :=
  rows.foldl (fun d r => assocInsert (key r) r d) []

theorem dictBy_keys_nodup {α : Type} (key : α → String) (rows : List α) :
    (assocKeys (dictBy key rows)).Nodup := by
  unfold dictBy
  suffices h : ∀ init : List (String × α), (assocKeys init).Nodup →
      (assocKeys (rows.foldl (fun d r => assocInsert (key r) r d) init)).Nodup by
    exact h [] (by simp [assocKeys])
  induction rows with
  | nil => intro init hi; exact hi
  | cons hd tl ih =>
    intro init hi
    rw [List.foldl_cons]
    exact ih _ (assocKeys_insert_nodup _ _ _ hi)

/-! ## Data model -/

/-- A `user_dnd_rules` row (hours and weekdays already converted to UTC);
`timezone` is display-only and omitted. -/
structure DndRule where
  start_hour_utc : Nat
  end_hour_utc : Nat
  weekdays_utc : List Nat
  deriving Repr, DecidableEq

/-- A UTC instant: a timestamp in minutes together with its hour-of-day and
weekday (Monday = 0), the three projections of `datetime` the code reads. -/
structure UtcTime where
  stamp : Int
  hour : Nat
  weekday : Nat
  deriving Repr, DecidableEq

/-- A `subscriptions` table row. -/
structure Subscription where
  user_id : Int
  server_name : String
  map_name : String
  players_over : Int
  guild_id : Int
  channel_id : Option Int
  is_paused : Bool
  deriving Repr, DecidableEq

/-- A `servers` row as returned by `get_all_active_servers`
(`current_max_players` is display-only and omitted). -/
structure ServerRow where
  current_server_name : String
  current_map : Option String
  current_player_count : Int
  deriving Repr, DecidableEq

/-- A row of `get_matching_subscriptions`: subscription fields joined
(LEFT JOIN) with the user's DND rule. -/
structure SubRow where
  user_id : Int
  players_over : Int
  channel_id : Option Int
  map_name : String
  dnd : Option DndRule
  deriving Repr, DecidableEq

/-- One delivery attempt handed to `_send_alert` (channel when
`channel_id` is set, otherwise a DM to `user_id`). -/
structure Delivery where
  user_id : Int
  channel_id : Option Int
  deriving Repr, DecidableEq

/-- A map-change event as detected inside `check_map_changes`. -/
structure MapEvent where
  server : String
  old_map : Option String
  new_map : String
  player_count : Int
  deriving Repr, DecidableEq

/-- Sentinel map value of server-wide subscriptions
(`SERVER_SUB_MAP_NAME` in `src/cogs/subscriptions.py`). -/
def SERVER_SUB_MAP_NAME : String := "*all*"

/-- LEFT JOIN `user_dnd_rules` on `user_id` (its primary key). -/
def dndLookup (dnds : List (Int × DndRule)) (uid : Int) : Option DndRule :=
  (dnds.find? (fun r => r.1 == uid)).map Prod.snd

/-! ## DNDEvaluator: `is_in_dnd` from `src/utils/dnd.py` -/

/-- `is_in_dnd(record, now_utc)`: `record` carries the joined DND columns,
`none` standing for NULL `start_hour_utc` (no rule set). -/
def is_in_dnd (dnd : Option DndRule) (now : UtcTime) : Bool :=
  match dnd with
  | none => false
  | some r =>
    let is_dnd_day := r.weekdays_utc.contains now.weekday
    let is_dnd_hour :=
      if r.start_hour_utc ≤ r.end_hour_utc then
        decide (r.start_hour_utc ≤ now.hour) && decide (now.hour < r.end_hour_utc)
      else
        decide (now.hour ≥ r.start_hour_utc) || decide (now.hour < r.end_hour_utc)
    is_dnd_day && is_dnd_hour

/-! ## Subscription table operations (`src/core/database.py`) -/

/-- The `(user_id, server_name, map_name)` primary-key test. -/
def subKeyMatches (user_id : Int) (server map_name : String)
    (s : Subscription) : Bool :=
  s.user_id == user_id && s.server_name == server && s.map_name == map_name

/-- `upsert_subscription`: INSERT, or ON CONFLICT on the primary key UPDATE
`players_over`, `guild_id`, `channel_id` and reset `is_paused` to false. -/
def upsert_subscription (table : List Subscription) (user_id : Int)
    (server map_name : String) (players_over : Int) (guild_id : Int)
    (channel_id : Option Int) : List Subscription :=
  let row : Subscription :=
    { user_id := user_id, server_name := server, map_name := map_name,
      players_over := players_over, guild_id := guild_id,
      channel_id := channel_id, is_paused := false }
  if table.any (subKeyMatches user_id server map_name) then
    table.map (fun s => if subKeyMatches user_id server map_name s then row else s)
  else
    table ++ [row]

/-- `set_subscription_paused`: UPDATE `is_paused` on every row of the user. -/
def set_subscription_paused (table : List Subscription) (user_id : Int)
    (is_paused : Bool) : List Subscription :=
  table.map (fun s => if s.user_id == user_id then { s with is_paused := is_paused } else s)

/-- SELECT of the unique row with the given primary key. -/
def findSubscription (table : List Subscription) (user_id : Int)
    (server map_name : String) : Option Subscription :=
  table.find? (subKeyMatches user_id server map_name)

/-- `get_matching_subscriptions`: rows of the event's server, not paused,
whose map is the event's lower-cased map or the wildcard sentinel, each
LEFT JOINed with the user's DND rule. -/
def get_matching_subscriptions (table : List Subscription)
    (dnds : List (Int × DndRule)) (server_name map_name : String) :
    List SubRow :=
  (table.filter (fun s =>
      s.server_name == server_name && s.is_paused == false &&
        (s.map_name == map_name || s.map_name == SERVER_SUB_MAP_NAME))).map
    (fun s =>
      { user_id := s.user_id, players_over := s.players_over,
        channel_id := s.channel_id, map_name := s.map_name,
        dnd := dndLookup dnds s.user_id })

/-! ## Map-change tick (`check_map_changes` in `src/cogs/subscriptions.py`) -/

/-- `str.lower()`, embedded as a character-by-character map (equal to
`String.toLower`, spelled so that the kernel can evaluate it). -/
def strToLower (s : String) : String :=
  ⟨s.data.map Char.toLower⟩

/-- Python truthiness of a string-or-None: `None` and `""` are falsy. -/
def mapTruthy : Option String → Bool
  | none => false
  | some s => !(s == "")

/-- The stored last-known map of a server: `self.last_known_maps.get(name)`
(`none` both when the key is absent and when `None` was stored). -/
def lastMapOf (st : List (String × Option String)) (name : String) :
    Option String :=
  (assocFind name st).getD none

/-- The deliveries attempted for one map-change event: matching
subscriptions minus those failing the strict `players_over` threshold and
those currently in DND. -/
def mapEventDeliveries (table : List Subscription)
    (dnds : List (Int × DndRule)) (now : UtcTime) (e : MapEvent) :
    List Delivery :=
  (get_matching_subscriptions table dnds e.server (strToLower e.new_map)).filterMap
    (fun sub =>
      if e.player_count ≤ sub.players_over then none
      else if is_in_dnd sub.dnd now then none
      else some { user_id := sub.user_id, channel_id := sub.channel_id })

/-- The `online_servers` dict `{row.current_server_name: row}`. -/
def onlineServersDict (poll : List ServerRow) :
    List (String × ServerRow) :=
  dictBy ServerRow.current_server_name poll

/-- The events detected by one non-priming pass of `check_map_changes`:
for each polled server, fire iff `current_map` is truthy and differs from
the stored last-known map. -/
def mapChangeEvents (st : List (String × Option String))
    (poll : List ServerRow) : List MapEvent :=
  (onlineServersDict poll).filterMap (fun kv =>
    let current_map := kv.2.current_map
    let last_map := lastMapOf st kv.1
    if mapTruthy current_map && !(last_map == current_map) then
      some { server := kv.1, old_map := last_map,
             new_map := current_map.getD (""),
             player_count := kv.2.current_player_count }
    else none)

/-- The `last_known_maps` update loop: store each polled server's current
map (also during the priming pass, whose loop body is identical). -/
def updateLastKnownMaps (st : List (String × Option String))
    (poll : List ServerRow) : List (String × Option String) :=
  (onlineServersDict poll).foldl
    (fun s kv => assocInsert kv.1 kv.2.current_map s) st

/-- One pass of the `check_map_changes` task body: returns the detected
events, the delivery attempts, and the new `last_known_maps`. An empty
stored state makes this a priming pass: populate the baseline, no alerts. -/
def check_map_changes (st : List (String × Option String))
    (poll : List ServerRow) (table : List Subscription)
    (dnds : List (Int × DndRule)) (now : UtcTime) :
    List MapEvent × List Delivery × List (String × Option String) :=
  if st.isEmpty then
    ([], [], updateLastKnownMaps st poll)
  else
    let events := mapChangeEvents st poll
    (events, events.flatMap (mapEventDeliveries table dnds now),
      updateLastKnownMaps st poll)

/-! ## Watchlist tick (`check_watchlist` in `src/cogs/watchlist.py`) -/

/-- A row of `get_watchlist_subscribers`: a `player_watchlist` row joined
(LEFT JOIN) with the user's DND rule. -/
structure WatchSubRow where
  user_id : Int
  player_name : String
  dnd : Option DndRule
  deriving Repr, DecidableEq

/-- One watchlist delivery attempt (always a DM). -/
structure WatchAttempt where
  user_id : Int
  player_name : String
  server_name : String
  deriving Repr, DecidableEq

/-- `get_watchlist_subscribers(player_names)`: watchlist rows whose player
is among the just-joined names, joined with DND columns. -/
def get_watchlist_subscribers (watchTable : List (Int × String))
    (dnds : List (Int × DndRule)) (player_names : List String) :
    List WatchSubRow :=
  (watchTable.filter (fun w => player_names.contains w.2)).map
    (fun w => { user_id := w.1, player_name := w.2, dnd := dndLookup dnds w.1 })

/-- The cooldown-skip test: the key is present and `now` is strictly
before its expiry. -/
def cooldownActive (cooldowns : List ((Int × String) × Int))
    (key : Int × String) (now : UtcTime) : Bool :=
  match assocFind key cooldowns with
  | some expiry => decide (now.stamp < expiry)
  | none => false

/-- The DND test inlined in `check_watchlist` (same computation as
`is_in_dnd`, re-implemented in the source). -/
def watchlistDndSkip (dnd : Option DndRule) (now : UtcTime) : Bool :=
  match dnd with
  | none => false
  | some r =>
    let is_dnd_day := r.weekdays_utc.contains now.weekday
    let is_dnd_hour :=
      if r.start_hour_utc ≤ r.end_hour_utc then
        decide (r.start_hour_utc ≤ now.hour) && decide (now.hour < r.end_hour_utc)
      else
        decide (now.hour ≥ r.start_hour_utc) || decide (now.hour < r.end_hour_utc)
    is_dnd_day && is_dnd_hour

/-- Body of the per-subscriber loop of `check_watchlist`: blocklist check,
cooldown check, DND check, then the DM attempt; the 15-minute cooldown is
written only when the send does not raise (`sendOk`). -/
def processWatchSub (blocked_user_ids : List Int)
    (current_online : List (String × String)) (now : UtcTime)
    (sendOk : Int → String → Bool)
    (acc : List WatchAttempt × List ((Int × String) × Int))
    (sub : WatchSubRow) :
    List WatchAttempt × List ((Int × String) × Int) :=
  if blocked_user_ids.contains sub.user_id then acc
  else
    let server_name := (assocFind sub.player_name current_online).getD ("Unknown Server")
    let cooldown_key := (sub.user_id, sub.player_name)
    if cooldownActive acc.2 cooldown_key now then acc
    else if watchlistDndSkip sub.dnd now then acc
    else
      let attempt : WatchAttempt :=
        { user_id := sub.user_id, player_name := sub.player_name,
          server_name := server_name }
      if sendOk sub.user_id sub.player_name then
        (acc.1 ++ [attempt], assocInsert cooldown_key (now.stamp + 15) acc.2)
      else
        (acc.1 ++ [attempt], acc.2)

/-- The just-joined names: present now but not in the previous cycle;
empty when the previous state is empty (restart priming). -/
def justJoinedNames (previously_online : List String)
    (current_online_names : List String) : List String :=
  if previously_online.isEmpty then []
  else current_online_names.filter (fun n => !previously_online.contains n)

/-- The `current_online` dict `{player_name: server_name}`. -/
def currentOnlineDict (onlineRows : List (String × String)) :
    List (String × String) :=
  (dictBy Prod.fst onlineRows).map (fun kv => (kv.1, kv.2.2))

/-- `current_online_names = set(current_online.keys())`. -/
def currentOnlineNames (onlineRows : List (String × String)) : List String :=
  (currentOnlineDict onlineRows).map Prod.fst

/-- One pass of the `check_watchlist` task body. Inputs: previous online
set, cooldown map, the polled `(player, server)` rows, the
`player_watchlist` table, DND rules, the blocked-user set and the send
oracle. Returns the DM attempts, the new `previously_online` and the new
cooldown map. The expired-cooldown purge runs only when the pass did not
return early at the empty just-joined check. -/
def check_watchlist (previously_online : List String)
    (cooldowns : List ((Int × String) × Int))
    (onlineRows : List (String × String))
    (watchTable : List (Int × String)) (dnds : List (Int × DndRule))
    (blocked_user_ids : List Int) (now : UtcTime)
    (sendOk : Int → String → Bool) :
    List WatchAttempt × List String × List ((Int × String) × Int) :=
  let current_online := currentOnlineDict onlineRows
  let current_online_names := currentOnlineNames onlineRows
  let just_joined_names := justJoinedNames previously_online current_online_names
  if just_joined_names.isEmpty then
    ([], current_online_names, cooldowns)
  else
    let subs := get_watchlist_subscribers watchTable dnds just_joined_names
    let acc :=
      subs.foldl (processWatchSub blocked_user_ids current_online now sendOk)
        ([], cooldowns)
    (acc.1, current_online_names,
      acc.2.filter (fun kv => !(decide (now.stamp > kv.2))))

/-! ## Round-result tick (`check_round_results` in `src/cogs/subscriptions.py`) -/

/-- A completed-or-running round as seen by the tick queries (`completed`
embeds `end_time IS NOT NULL`). -/
structure RoundRec where
  id : Int
  server_name : String
  completed : Bool
  deriving Repr, DecidableEq

/-- A `round_result_subscriptions` table row. -/
structure RoundResultSub where
  user_id : Int
  server_name : String
  guild_id : Int
  channel_id : Option Int
  deriving Repr, DecidableEq

/-- Insert a round into a list sorted ascending by id. -/
def insertByIdAsc (r : RoundRec) : List RoundRec → List RoundRec
  | [] => [r]
  | x :: xs => if r.id ≤ x.id then r :: x :: xs else x :: insertByIdAsc r xs

/-- Sort rounds ascending by id (`ORDER BY r.round_id ASC`). -/
def sortByIdAsc (rounds : List RoundRec) : List RoundRec :=
  rounds.foldr insertByIdAsc []

/-- `get_new_completed_rounds(last_round_id)`: completed rounds with id
strictly above the watermark, ascending by id. -/
def get_new_completed_rounds (rounds : List RoundRec) (last_round_id : Int) :
    List RoundRec :=
  sortByIdAsc (rounds.filter (fun r => last_round_id < r.id && r.completed))

/-- `get_max_round_id`: `COALESCE(MAX(round_id), 0)` over all rounds. -/
def get_max_round_id (rounds : List RoundRec) : Int :=
  rounds.foldl (fun m r => max m r.id) 0

/-- `get_round_result_subscribers(server_name)`: rows for that server
joined with DND columns. -/
def get_round_result_subscribers (table : List RoundResultSub)
    (dnds : List (Int × DndRule)) (server_name : String) : List SubRow :=
  (table.filter (fun s => s.server_name == server_name)).map
    (fun s =>
      { user_id := s.user_id, players_over := 0, channel_id := s.channel_id,
        map_name := "", dnd := dndLookup dnds s.user_id })

/-- The deliveries attempted for one completed round: that server's
round-result subscribers minus those in DND. -/
def roundDeliveries (table : List RoundResultSub)
    (dnds : List (Int × DndRule)) (now : UtcTime) (rnd : RoundRec) :
    List Delivery :=
  (get_round_result_subscribers table dnds rnd.server_name).filterMap
    (fun sub =>
      if is_in_dnd sub.dnd now then none
      else some { user_id := sub.user_id, channel_id := sub.channel_id })

/-- The watermark fold of `check_round_results`:
`max_seen_id` starts at the stored watermark and takes each larger id. -/
def maxSeenId (last_id : Int) (events : List RoundRec) : Int :=
  events.foldl (fun m r => if r.id > m then r.id else m) last_id

/-- One pass of the `check_round_results` task body: returns the processed
rounds, the delivery attempts, and the stored watermark after the pass.
A missing watermark (`none`) makes this an initialisation pass: store the
current maximal round id and process nothing; an empty event list returns
early leaving the watermark unchanged. -/
def check_round_results (watermark : Option Int) (rounds : List RoundRec)
    (table : List RoundResultSub) (dnds : List (Int × DndRule))
    (now : UtcTime) : List RoundRec × List Delivery × Option Int :=
  match watermark with
  | none => ([], [], some (get_max_round_id rounds))
  | some last_id =>
    let new_rounds := get_new_completed_rounds rounds last_id
    if new_rounds.isEmpty then ([], [], some last_id)
    else
      (new_rounds, new_rounds.flatMap (roundDeliveries table dnds now),
        some (maxSeenId last_id new_rounds))

/-! ## Supporting lemmas -/

theorem assocFind_map_value {β α γ : Type} [DecidableEq β] (k : β)
    (f : α → γ) (d : List (β × α)) :
    assocFind k (d.map (fun kv => (kv.1, f kv.2))) = (assocFind k d).map f := by
  induction d with
  | nil => simp [assocFind]
  | cons hd tl ih =>
    rw [List.map_cons, assocFind, assocFind]
    by_cases h : hd.1 = k
    · simp [h]
    · simp only [if_neg h, ih]

theorem assocKeys_map_value {β α γ : Type} [DecidableEq β]
    (f : α → γ) (d : List (β × α)) :
    assocKeys (d.map (fun kv => (kv.1, f kv.2))) = assocKeys d := by
  unfold assocKeys
  rw [List.map_map]
  rfl

theorem mem_of_assocFind_eq_some {β α : Type} [DecidableEq β] (k : β)
    (v : α) (d : List (β × α)) (h : assocFind k d = some v) : (k, v) ∈ d := by
  induction d with
  | nil => exact absurd h (by simp [assocFind])
  | cons hd tl ih =>
    obtain ⟨k₁, v₁⟩ := hd
    rw [assocFind] at h
    by_cases hk : k₁ = k
    · rw [if_pos hk] at h
      injection h with hv
      subst hk
      subst hv
      exact List.mem_cons_self _ _
    · rw [if_neg hk] at h
      exact List.mem_cons_of_mem _ (ih h)

theorem assocFind_eq_some_of_mem_nodup {β α : Type} [DecidableEq β] (k : β)
    (v : α) (d : List (β × α)) (hnd : (assocKeys d).Nodup)
    (hm : (k, v) ∈ d) : assocFind k d = some v := by
  induction d with
  | nil => exact absurd hm (by simp)
  | cons hd tl ih =>
    unfold assocKeys at hnd
    rw [List.map_cons, List.nodup_cons] at hnd
    rw [assocFind]
    rcases List.mem_cons.mp hm with heq | hmem
    · rw [← heq]
      simp
    · by_cases hk : hd.1 = k
      · exfalso
        apply hnd.1
        rw [hk]
        exact List.mem_map_of_mem Prod.fst hmem
      · rw [if_neg hk]
        exact ih hnd.2 hmem

theorem assocInsert_ne_nil {β α : Type} [DecidableEq β] (k : β) (v : α)
    (d : List (β × α)) : assocInsert k v d ≠ [] := by
  cases d with
  | nil => simp [assocInsert]
  | cons hd tl =>
    obtain ⟨k₁, v₁⟩ := hd
    rw [assocInsert]
    split <;> simp

theorem foldl_assocInsert_ne_nil {β α γ : Type} [DecidableEq β]
    (key : γ → β) (f : γ → α) (l : List γ) (st : List (β × α)) (h : st ≠ []) :
    l.foldl (fun s x => assocInsert (key x) (f x) s) st ≠ [] := by
  induction l generalizing st with
  | nil => exact h
  | cons hd tl ih =>
    rw [List.foldl_cons]
    exact ih _ (assocInsert_ne_nil _ _ _)

/-- Pointwise description of the `last_known_maps` update loop: polled
servers take their polled map, all other entries are untouched. -/
theorem updateLastKnownMaps_find (st : List (String × Option String))
    (poll : List ServerRow) (name : String) :
    assocFind name (updateLastKnownMaps st poll) =
      match assocFind name (onlineServersDict poll) with
      | some row => some row.current_map
      | none => assocFind name st := by
  unfold updateLastKnownMaps
  have hfold :
      (onlineServersDict poll).foldl
          (fun s kv => assocInsert kv.1 kv.2.current_map s) st =
        ((onlineServersDict poll).map
            (fun kv => (kv.1, kv.2.current_map))).foldl
          (fun s kv => assocInsert kv.1 kv.2 s) st := by
    rw [List.foldl_map]
  rw [hfold, assocFind_foldl_insert _ _ _
    (by rw [assocKeys_map_value]; exact dictBy_keys_nodup _ _),
    assocFind_map_value]
  cases assocFind name (onlineServersDict poll) <;> rfl

theorem updateLastKnownMaps_ne_nil (st : List (String × Option String))
    (poll : List ServerRow) (h : st ≠ []) :
    updateLastKnownMaps st poll ≠ [] := by
  unfold updateLastKnownMaps
  exact foldl_assocInsert_ne_nil
    (fun kv : String × ServerRow => kv.1)
    (fun kv : String × ServerRow => kv.2.current_map) _ _ h

/-- Membership in `insertByIdAsc`. -/
theorem mem_insertByIdAsc (r x : RoundRec) (l : List RoundRec) :
    x ∈ insertByIdAsc r l ↔ x = r ∨ x ∈ l := by
  induction l with
  | nil => simp [insertByIdAsc]
  | cons hd tl ih =>
    rw [insertByIdAsc]
    split
    · simp [or_comm, List.mem_cons, or_assoc, or_left_comm]
    · rw [List.mem_cons, ih, List.mem_cons]
      tauto

/-- Membership in `sortByIdAsc`. -/
theorem mem_sortByIdAsc (x : RoundRec) (l : List RoundRec) :
    x ∈ sortByIdAsc l ↔ x ∈ l := by
  induction l with
  | nil => simp [sortByIdAsc]
  | cons hd tl ih =>
    unfold sortByIdAsc at ih ⊢
    rw [List.foldr_cons, mem_insertByIdAsc, ih, List.mem_cons]

/-- `insertByIdAsc` preserves ascending order. -/
theorem pairwise_insertByIdAsc (r : RoundRec) (l : List RoundRec)
    (h : l.Pairwise (fun a b => a.id ≤ b.id)) :
    (insertByIdAsc r l).Pairwise (fun a b => a.id ≤ b.id) := by
  induction l with
  | nil => simp [insertByIdAsc]
  | cons hd tl ih =>
    rw [List.pairwise_cons] at h
    rw [insertByIdAsc]
    split
    case isTrue hle =>
      rw [List.pairwise_cons]
      constructor
      · intro x hx
        rcases List.mem_cons.mp hx with heq | hmem
        · exact heq ▸ hle
        · exact le_trans hle (h.1 x hmem)
      · exact List.Pairwise.cons h.1 h.2
    case isFalse hgt =>
      rw [List.pairwise_cons]
      constructor
      · intro x hx
        rcases (mem_insertByIdAsc r x tl).mp hx with heq | hmem
        · exact heq ▸ le_of_not_le hgt
        · exact h.1 x hmem
      · exact ih h.2

/-- `sortByIdAsc` sorts ascending by id. -/
theorem pairwise_sortByIdAsc (l : List RoundRec) :
    (sortByIdAsc l).Pairwise (fun a b => a.id ≤ b.id) := by
  induction l with
  | nil => simp [sortByIdAsc]
  | cons hd tl ih =>
    unfold sortByIdAsc at ih ⊢
    rw [List.foldr_cons]
    exact pairwise_insertByIdAsc hd _ ih

theorem le_maxSeenId (last_id : Int) (l : List RoundRec) :
    last_id ≤ maxSeenId last_id l := by
  induction l generalizing last_id with
  | nil => exact le_refl _
  | cons hd tl ih =>
    unfold maxSeenId at ih ⊢
    rw [List.foldl_cons]
    refine le_trans ?_ (ih _)
    split
    · exact le_of_lt (by assumption)
    · exact le_refl _

theorem maxSeenId_ge_mem (last_id : Int) (l : List RoundRec) (r : RoundRec)
    (h : r ∈ l) : r.id ≤ maxSeenId last_id l := by
  induction l generalizing last_id with
  | nil => exact absurd h (List.not_mem_nil r)
  | cons hd tl ih =>
    unfold maxSeenId at ih ⊢
    rw [List.foldl_cons]
    rcases List.mem_cons.mp h with heq | hmem
    · subst heq
      refine le_trans ?_ (le_maxSeenId _ tl)
      split
      · exact le_refl _
      · exact le_of_not_lt (by assumption)
    · exact ih _ hmem

theorem maxSeenId_eq_init_or_mem (last_id : Int) (l : List RoundRec) :
    maxSeenId last_id l = last_id ∨ ∃ r ∈ l, maxSeenId last_id l = r.id := by
  induction l generalizing last_id with
  | nil => exact Or.inl rfl
  | cons hd tl ih =>
    unfold maxSeenId at ih ⊢
    rw [List.foldl_cons]
    split
    · rcases ih hd.id with h1 | ⟨r, hr, h2⟩
      · exact Or.inr ⟨hd, List.mem_cons_self hd tl, h1⟩
      · exact Or.inr ⟨r, List.mem_cons_of_mem hd hr, h2⟩
    · rcases ih last_id with h1 | ⟨r, hr, h2⟩
      · exact Or.inl h1
      · exact Or.inr ⟨r, List.mem_cons_of_mem hd hr, h2⟩

/-! ## Claim theorems -/

/-- C5: the DND predicate returns false when no rule is set, and otherwise
returns (weekday ∈ weekdays_utc) AND hour_ok, where hour_ok is
start_hour ≤ hour < end_hour for a same-day window and
hour ≥ start_hour OR hour < end_hour for a window wrapping midnight; for
start=22, end=6 on an included weekday, hours 23 and 2 are suppressed and
hours 6 and 10 are not (end exclusive). -/
theorem C5_dnd_evaluator :
    (∀ now : UtcTime, is_in_dnd none now = false) ∧
    (∀ (r : DndRule) (now : UtcTime),
      is_in_dnd (some r) now =
        (decide (now.weekday ∈ r.weekdays_utc) &&
          (if r.start_hour_utc ≤ r.end_hour_utc then
            decide (r.start_hour_utc ≤ now.hour) && decide (now.hour < r.end_hour_utc)
          else
            decide (now.hour ≥ r.start_hour_utc) || decide (now.hour < r.end_hour_utc)))) ∧
    (is_in_dnd (some ⟨22, 6, [2]⟩) ⟨0, 23, 2⟩ = true ∧
      is_in_dnd (some ⟨22, 6, [2]⟩) ⟨0, 2, 2⟩ = true ∧
      is_in_dnd (some ⟨22, 6, [2]⟩) ⟨0, 6, 2⟩ = false ∧
      is_in_dnd (some ⟨22, 6, [2]⟩) ⟨0, 10, 2⟩ = false) := by
  refine ⟨fun now => rfl, fun r now => ?_, by decide⟩
  rw [is_in_dnd]
  by_cases h : r.start_hour_utc ≤ r.end_hour_utc
  · simp only [if_pos h]
    congr 1
    simp [List.elem_eq_mem]
  · simp only [if_neg h]
    congr 1
    simp [List.elem_eq_mem]

/-- C3: a tick whose stored previous state is empty is a priming pass: the
map-change tick with empty `last_known_maps` emits no events and no
deliveries and adopts the polled maps as the baseline, and the watchlist
tick with empty `previously_online` attempts no deliveries, leaves the
cooldowns untouched and adopts the polled online names. -/
theorem C3_priming_pass :
    (∀ (poll : List ServerRow) (table : List Subscription)
        (dnds : List (Int × DndRule)) (now : UtcTime),
      check_map_changes [] poll table dnds now =
        ([], [], updateLastKnownMaps [] poll)) ∧
    (∀ (poll : List ServerRow) (name : String),
      assocFind name (updateLastKnownMaps [] poll) =
        (assocFind name (onlineServersDict poll)).map ServerRow.current_map) ∧
    (∀ (cooldowns : List ((Int × String) × Int))
        (onlineRows : List (String × String))
        (watchTable : List (Int × String)) (dnds : List (Int × DndRule))
        (blocked : List Int) (now : UtcTime) (sendOk : Int → String → Bool),
      check_watchlist [] cooldowns onlineRows watchTable dnds blocked now
          sendOk =
        ([], currentOnlineNames onlineRows, cooldowns)) := by
  refine ⟨fun poll table dnds now => ?_, fun poll name => ?_, ?_⟩
  · simp [check_map_changes]
  · rw [updateLastKnownMaps_find]
    cases assocFind name (onlineServersDict poll) <;> simp [assocFind]
  · intro cooldowns onlineRows watchTable dnds blocked now sendOk
    simp [check_watchlist, justJoinedNames]

/-- C2 fails as stated: with baseline `{A ↦ "m", B ↦ "x"}` and a poll
containing only server B with the empty-string map, the claim's condition
holds for B (its map is non-null and differs from the stored "x"), yet the
code fires no event (Python truthiness treats `""` like `None`), and the
baseline after the tick still contains the stale entry for A, so it does
not equal the polled maps. -/
theorem C2_counterexample :
    let st : List (String × Option String) := [("A", some ("m")), ("B", some ("x"))]
    let poll : List ServerRow := [⟨"B", some (""), 5⟩]
    let res := check_map_changes st poll [] [] ⟨0, 0, 0⟩
    ((⟨"B", some (""), 5⟩ : ServerRow).current_map ≠ none ∧
      (⟨"B", some (""), 5⟩ : ServerRow).current_map ≠ lastMapOf st "B" ∧
      res.1 = []) ∧
    res.2.2 ≠ (onlineServersDict poll).map (fun kv => (kv.1, kv.2.current_map)) := by
  decide

/-- C2 (amended): on every map-change tick after priming, a map-change
event fires for a polled server iff its current map is truthy (non-null
and non-empty) and differs from the stored last-known map (absent entry
counts as mismatch); after the tick the baseline agrees with the polled
maps on every polled server, servers absent from the poll retain their old
baseline entries, and re-polling the same snapshot fires no event. -/
theorem C2_map_edge_trigger (st : List (String × Option String))
    (poll : List ServerRow) (table : List Subscription)
    (dnds : List (Int × DndRule)) (now : UtcTime) (h : st ≠ []) :
    (check_map_changes st poll table dnds now =
      (mapChangeEvents st poll,
        (mapChangeEvents st poll).flatMap (mapEventDeliveries table dnds now),
        updateLastKnownMaps st poll)) ∧
    (∀ name row, assocFind name (onlineServersDict poll) = some row →
      ((∃ e ∈ mapChangeEvents st poll, e.server = name) ↔
        (mapTruthy row.current_map = true ∧
          lastMapOf st name ≠ row.current_map))) ∧
    (∀ name row, assocFind name (onlineServersDict poll) = some row →
      assocFind name (updateLastKnownMaps st poll) = some row.current_map) ∧
    (∀ name, assocFind name (onlineServersDict poll) = none →
      assocFind name (updateLastKnownMaps st poll) = assocFind name st) ∧
    (check_map_changes (updateLastKnownMaps st poll) poll table dnds now).1 =
      [] := by
  have hempty : st.isEmpty = false := by
    cases st with
    | nil => exact absurd rfl h
    | cons a l => rfl
  have hfind3 : ∀ name row, assocFind name (onlineServersDict poll) = some row →
      assocFind name (updateLastKnownMaps st poll) = some row.current_map := by
    intro name row hrow
    rw [updateLastKnownMaps_find, hrow]
  refine ⟨?_, ?_, hfind3, ?_, ?_⟩
  · simp [check_map_changes, hempty]
  · intro name row hrow
    constructor
    · rintro ⟨e, he, hserver⟩
      rcases List.mem_filterMap.mp he with ⟨kv, hkv, hf⟩
      by_cases hc : (mapTruthy kv.2.current_map &&
          !(lastMapOf st kv.1 == kv.2.current_map)) = true
      · rw [if_pos hc] at hf
        injection hf with he2
        subst he2
        have hsrv : kv.1 = name := hserver
        have hmem : (name, kv.2) ∈ onlineServersDict poll := by
          rw [← hsrv]
          exact hkv
        have hfind2 : assocFind name (onlineServersDict poll) = some kv.2 :=
          assocFind_eq_some_of_mem_nodup name kv.2 (onlineServersDict poll)
            (dictBy_keys_nodup _ _) hmem
        have hrow2 : kv.2 = row := by
          have h2 : (some kv.2 : Option ServerRow) = some row :=
            hfind2.symm.trans hrow
          injection h2
        rw [Bool.and_eq_true, Bool.not_eq_true', beq_eq_false_iff_ne] at hc
        rw [← hrow2, ← hsrv]
        exact ⟨hc.1, hc.2⟩
      · rw [if_neg hc] at hf
        exact Option.noConfusion hf
    · rintro ⟨htruthy, hne⟩
      have hmem : (name, row) ∈ onlineServersDict poll :=
        mem_of_assocFind_eq_some _ _ _ hrow
      have hc : (mapTruthy row.current_map &&
          !(lastMapOf st name == row.current_map)) = true := by
        rw [Bool.and_eq_true, Bool.not_eq_true', beq_eq_false_iff_ne]
        exact ⟨htruthy, hne⟩
      refine ⟨⟨name, lastMapOf st name, row.current_map.getD (""),
        row.current_player_count⟩, ?_, rfl⟩
      apply List.mem_filterMap.mpr
      exact ⟨(name, row), hmem, by rw [if_pos hc]⟩
  · intro name hnone
    rw [updateLastKnownMaps_find, hnone]
  · have hempty2 : (updateLastKnownMaps st poll).isEmpty = false := by
      have := updateLastKnownMaps_ne_nil st poll h
      cases hu : updateLastKnownMaps st poll with
      | nil => exact absurd hu this
      | cons a l => rfl
    simp only [check_map_changes, hempty2, Bool.false_eq_true, if_false]
    apply List.filterMap_eq_nil_iff.mpr
    intro kv hkv
    obtain ⟨kname, krow⟩ := kv
    have hfind : assocFind kname (onlineServersDict poll) = some krow :=
      assocFind_eq_some_of_mem_nodup kname krow (onlineServersDict poll)
        (dictBy_keys_nodup _ _) hkv
    have hlast : lastMapOf (updateLastKnownMaps st poll) kname =
        krow.current_map := by
      unfold lastMapOf
      rw [hfind3 kname krow hfind]
      rfl
    simp [hlast]

/-- Witness for C2: a concrete second tick on an unchanged snapshot fires
no event. -/
theorem C2_map_edge_trigger_witness :
    (check_map_changes
      (updateLastKnownMaps [("A", some ("m"))] [⟨"A", some ("n"), 3⟩])
      [⟨"A", some ("n"), 3⟩] [] [] ⟨0, 0, 0⟩).1 = [] :=
  (C2_map_edge_trigger [("A", some ("m"))] [⟨"A", some ("n"), 3⟩] [] [] ⟨0, 0, 0⟩
    (by decide)).2.2.2.2

/-- C1 fails on the code: in the map-change tick, a matched candidate with
a blocked `subscriber_id` (user 111) and one whose `guild_id` is blocked
(guild 999, channel 555) both receive a delivery attempt — the scenario of
`src/tests/test_blacklist_enforcement.py::test_subscription_blacklist`,
which the tick's code (no blocklist check) contradicts. -/
theorem C1_blocklist_bug :
    let table : List Subscription :=
      [⟨111, "Server1", "mapa", 0, 100, none, false⟩,
        ⟨444, "Server1", "mapa", 0, 999, some 555, false⟩,
        ⟨333, "Server1", "mapa", 0, 100, none, false⟩,
        ⟨444, "Server1", "mapa", 0, 888, some 666, false⟩]
    let dels := (check_map_changes [("Server1", some ("OldMap"))]
      [⟨"Server1", some ("MapA"), 10⟩] table [] ⟨0, 0, 0⟩).2.1
    ((⟨111, none⟩ : Delivery) ∈ dels ∧ (111 : Int) ∈ ([111, 222] : List Int)) ∧
    ((⟨444, some 555⟩ : Delivery) ∈ dels ∧
      ∃ s ∈ table, s.channel_id = some 555 ∧ s.guild_id ∈ ([999] : List Int)) := by
  decide

/-- C4: a subscription rule gets a delivery attempt for a map-change event
only if it is for the event's server with map equal to the lower-cased new
map or the wildcard sentinel, unpaused, and with `players_over` strictly
below the event's player count; conversely such a rule (outside DND) gets
one; a rule with `players_over = 0` fires at player count 1, and a rule
whose `players_over` equals the player count never fires. -/
theorem C4_threshold_matching :
    (∀ (table : List Subscription) (dnds : List (Int × DndRule))
        (now : UtcTime) (e : MapEvent) (d : Delivery),
      d ∈ mapEventDeliveries table dnds now e →
      ∃ s ∈ table, s.user_id = d.user_id ∧ s.channel_id = d.channel_id ∧
        s.server_name = e.server ∧
        (s.map_name = strToLower e.new_map ∨ s.map_name = SERVER_SUB_MAP_NAME) ∧
        s.is_paused = false ∧ s.players_over < e.player_count) ∧
    (∀ (table : List Subscription) (dnds : List (Int × DndRule))
        (now : UtcTime) (e : MapEvent) (s : Subscription),
      s ∈ table → s.server_name = e.server →
      (s.map_name = strToLower e.new_map ∨ s.map_name = SERVER_SUB_MAP_NAME) →
      s.is_paused = false → s.players_over < e.player_count →
      is_in_dnd (dndLookup dnds s.user_id) now = false →
      ∃ d ∈ mapEventDeliveries table dnds now e,
        d.user_id = s.user_id ∧ d.channel_id = s.channel_id) ∧
    (mapEventDeliveries [⟨1, "S", "mapx", 0, 9, none, false⟩] [] ⟨0, 0, 0⟩
        ⟨"S", some ("old"), "MapX", 1⟩ = [⟨1, none⟩] ∧
      mapEventDeliveries [⟨1, "S", "mapx", 5, 9, none, false⟩] [] ⟨0, 0, 0⟩
        ⟨"S", some ("old"), "MapX", 5⟩ = []) := by
  refine ⟨?_, ?_, by decide⟩
  · intro table dnds now e d hd
    rcases List.mem_filterMap.mp hd with ⟨sub, hsub, hf⟩
    unfold get_matching_subscriptions at hsub
    rcases List.mem_map.mp hsub with ⟨s, hs, hgs⟩
    rcases List.mem_filter.mp hs with ⟨hmem, hp⟩
    simp only [Bool.and_eq_true, Bool.or_eq_true, beq_iff_eq] at hp
    by_cases hth : e.player_count ≤ sub.players_over
    · rw [if_pos hth] at hf
      exact Option.noConfusion hf
    · rw [if_neg hth] at hf
      by_cases hdnd : is_in_dnd sub.dnd now = true
      · rw [if_pos hdnd] at hf
        exact Option.noConfusion hf
      · rw [if_neg hdnd] at hf
        injection hf with hdd
        subst hdd
        refine ⟨s, hmem, ?_, ?_, hp.1.1, hp.2, hp.1.2, ?_⟩
        · rw [← hgs]
        · rw [← hgs]
        · have : sub.players_over = s.players_over := by rw [← hgs]
          rw [← this]
          exact lt_of_not_le hth
  · intro table dnds now e s hmem hserver hmap hpause hover hdnd
    have hp : (s.server_name == e.server && s.is_paused == false &&
        (s.map_name == strToLower e.new_map ||
          s.map_name == SERVER_SUB_MAP_NAME)) = true := by
      simp only [Bool.and_eq_true, Bool.or_eq_true, beq_iff_eq]
      exact ⟨⟨hserver, hpause⟩, hmap⟩
    have hsub : (⟨s.user_id, s.players_over, s.channel_id, s.map_name,
        dndLookup dnds s.user_id⟩ : SubRow) ∈
        get_matching_subscriptions table dnds e.server (strToLower e.new_map) := by
      unfold get_matching_subscriptions
      exact List.mem_map_of_mem _ (List.mem_filter.mpr ⟨hmem, hp⟩)
    refine ⟨⟨s.user_id, s.channel_id⟩, ?_, rfl, rfl⟩
    apply List.mem_filterMap.mpr
    refine ⟨_, hsub, ?_⟩
    rw [if_neg (not_le.mpr hover), if_neg ?_]
    exact fun hcon => absurd hcon (by rw [hdnd]; exact Bool.false_ne_true)

/-- Witness for C4: a concrete unpaused wildcard rule with
`players_over = 2` receives a delivery attempt at player count 3. -/
theorem C4_threshold_matching_witness :
    ∃ d ∈ mapEventDeliveries [⟨7, "S", "*all*", 2, 9, some 44, false⟩] []
      ⟨0, 0, 0⟩ ⟨"S", some ("old"), "MapY", 3⟩,
      d.user_id = 7 ∧ d.channel_id = some 44 :=
  C4_threshold_matching.2.1 [⟨7, "S", "*all*", 2, 9, some 44, false⟩] []
    ⟨0, 0, 0⟩ ⟨"S", some ("old"), "MapY", 3⟩
    ⟨7, "S", "*all*", 2, 9, some 44, false⟩ (by decide) (by decide)
    (Or.inr (by decide)) (by decide) (by decide) (by decide)

/-- Unfolding of a non-initialisation round-result pass (valid whether or
not any new round exists, since an empty event list leaves the watermark
at `maxSeenId wm [] = wm`). -/
theorem check_round_results_some_eq (wm : Int) (rounds : List RoundRec)
    (table : List RoundResultSub) (dnds : List (Int × DndRule))
    (now : UtcTime) :
    check_round_results (some wm) rounds table dnds now =
      (get_new_completed_rounds rounds wm,
        (get_new_completed_rounds rounds wm).flatMap
          (roundDeliveries table dnds now),
        some (maxSeenId wm (get_new_completed_rounds rounds wm))) := by
  by_cases he : (get_new_completed_rounds rounds wm).isEmpty
  · have hnil : get_new_completed_rounds rounds wm = [] := by
      cases hg : get_new_completed_rounds rounds wm with
      | nil => rfl
      | cons a l => rw [hg] at he; exact absurd he (by simp [List.isEmpty])
    simp only [check_round_results]
    rw [hnil]
    simp [maxSeenId]
  · simp only [check_round_results, he, Bool.false_eq_true, if_false]

/-- C6: the round-result tick processes exactly the completed rounds with
id above the stored watermark, ascending by id; the persisted watermark is
the maximum of the old watermark and the processed ids (hence never
decreases); re-running the tick with the new watermark and unchanged
rounds processes nothing and delivers nothing. -/
theorem C6_round_watermark (wm : Int) (rounds : List RoundRec)
    (table : List RoundResultSub) (dnds : List (Int × DndRule))
    (now : UtcTime) :
    (check_round_results (some wm) rounds table dnds now =
      (get_new_completed_rounds rounds wm,
        (get_new_completed_rounds rounds wm).flatMap
          (roundDeliveries table dnds now),
        some (maxSeenId wm (get_new_completed_rounds rounds wm)))) ∧
    (∀ r, r ∈ get_new_completed_rounds rounds wm ↔
      (r ∈ rounds ∧ r.completed = true ∧ wm < r.id)) ∧
    (get_new_completed_rounds rounds wm).Pairwise (fun a b => a.id ≤ b.id) ∧
    wm ≤ maxSeenId wm (get_new_completed_rounds rounds wm) ∧
    (∀ r ∈ get_new_completed_rounds rounds wm,
      r.id ≤ maxSeenId wm (get_new_completed_rounds rounds wm)) ∧
    (maxSeenId wm (get_new_completed_rounds rounds wm) = wm ∨
      ∃ r ∈ get_new_completed_rounds rounds wm,
        maxSeenId wm (get_new_completed_rounds rounds wm) = r.id) ∧
    check_round_results
        (some (maxSeenId wm (get_new_completed_rounds rounds wm)))
        rounds table dnds now =
      ([], [],
        some (maxSeenId wm (get_new_completed_rounds rounds wm))) := by
  have hmemiff : ∀ r, r ∈ get_new_completed_rounds rounds wm ↔
      (r ∈ rounds ∧ r.completed = true ∧ wm < r.id) := by
    intro r
    unfold get_new_completed_rounds
    rw [mem_sortByIdAsc, List.mem_filter, Bool.and_eq_true, decide_eq_true_eq]
    tauto
  have hge : ∀ r ∈ get_new_completed_rounds rounds wm,
      r.id ≤ maxSeenId wm (get_new_completed_rounds rounds wm) :=
    fun r hr => maxSeenId_ge_mem wm _ r hr
  have hrerun0 : ∀ m : Int, (∀ r ∈ rounds, r.completed = true → r.id ≤ m) →
      get_new_completed_rounds rounds m = [] := by
    intro m hm
    unfold get_new_completed_rounds
    have hfil : rounds.filter (fun r => decide (m < r.id) && r.completed) =
        [] := by
      rw [List.filter_eq_nil_iff]
      intro r hr
      rw [Bool.and_eq_true, decide_eq_true_eq]
      rintro ⟨hlt, hcomp⟩
      exact absurd hlt (not_lt.mpr (hm r hr hcomp))
    rw [hfil]
    rfl
  have hall : ∀ r ∈ rounds, r.completed = true →
      r.id ≤ maxSeenId wm (get_new_completed_rounds rounds wm) := by
    intro r hr hcomp
    by_cases hw : wm < r.id
    · exact hge r ((hmemiff r).mpr ⟨hr, hcomp, hw⟩)
    · exact le_trans (not_lt.mp hw) (le_maxSeenId wm _)
  have hrerun := hrerun0 _ hall
  refine ⟨check_round_results_some_eq wm rounds table dnds now, hmemiff,
    pairwise_sortByIdAsc _, le_maxSeenId wm _, hge,
    maxSeenId_eq_init_or_mem wm _, ?_⟩
  rw [check_round_results_some_eq, hrerun]
  simp [maxSeenId]

/-- Witness for C6: a concrete re-run of the round-result tick after the
watermark advanced past rounds 1 and 3 processes and delivers nothing. -/
theorem C6_round_watermark_witness :
    check_round_results
        (some (maxSeenId 0 (get_new_completed_rounds
          [⟨3, "S", true⟩, ⟨1, "S", true⟩, ⟨2, "S", false⟩] 0)))
        [⟨3, "S", true⟩, ⟨1, "S", true⟩, ⟨2, "S", false⟩] [] [] ⟨0, 0, 0⟩ =
      ([], [],
        some (maxSeenId 0 (get_new_completed_rounds
          [⟨3, "S", true⟩, ⟨1, "S", true⟩, ⟨2, "S", false⟩] 0))) :=
  (C6_round_watermark 0 [⟨3, "S", true⟩, ⟨1, "S", true⟩, ⟨2, "S", false⟩]
    [] [] ⟨0, 0, 0⟩).2.2.2.2.2.2

/-- C7: a successfully delivered watchlist alert at time `t` writes a
cooldown expiring at `t + 15` minutes for the (subscriber, player) pair;
any later join event for the pair strictly before the expiry is suppressed
with no delivery attempt, and a join event at or after the expiry (outside
DND) is delivered again. -/
theorem C7_watchlist_cooldown (blocked : List Int)
    (cur : List (String × String)) (cooldowns : List ((Int × String) × Int))
    (attempts : List WatchAttempt) (sub : WatchSubRow) (t : UtcTime)
    (sendOk : Int → String → Bool)
    (hb : blocked.contains sub.user_id = false)
    (hcd : cooldownActive cooldowns (sub.user_id, sub.player_name) t = false)
    (hdnd : watchlistDndSkip sub.dnd t = false)
    (hsend : sendOk sub.user_id sub.player_name = true) :
    (processWatchSub blocked cur t sendOk (attempts, cooldowns) sub =
      (attempts ++ [⟨sub.user_id, sub.player_name,
          (assocFind sub.player_name cur).getD ("Unknown Server")⟩],
        assocInsert (sub.user_id, sub.player_name) (t.stamp + 15)
          cooldowns)) ∧
    (∀ (t₂ : UtcTime) (sendOk₂ : Int → String → Bool)
        (A : List WatchAttempt), t₂.stamp < t.stamp + 15 →
      processWatchSub blocked cur t₂ sendOk₂
          (A, assocInsert (sub.user_id, sub.player_name) (t.stamp + 15)
            cooldowns) sub =
        (A, assocInsert (sub.user_id, sub.player_name) (t.stamp + 15)
          cooldowns)) ∧
    (∀ (t₃ : UtcTime) (sendOk₃ : Int → String → Bool)
        (A : List WatchAttempt), t.stamp + 15 ≤ t₃.stamp →
      watchlistDndSkip sub.dnd t₃ = false →
      (processWatchSub blocked cur t₃ sendOk₃
          (A, assocInsert (sub.user_id, sub.player_name) (t.stamp + 15)
            cooldowns) sub).1 =
        A ++ [⟨sub.user_id, sub.player_name,
          (assocFind sub.player_name cur).getD ("Unknown Server")⟩]) := by
  have hbm : sub.user_id ∉ blocked := by simpa using hb
  refine ⟨?_, ?_, ?_⟩
  · simp [processWatchSub, hbm, hcd, hdnd, hsend]
  · intro t₂ sendOk₂ A hlt
    have hact : cooldownActive
        (assocInsert (sub.user_id, sub.player_name) (t.stamp + 15) cooldowns)
        (sub.user_id, sub.player_name) t₂ = true := by
      unfold cooldownActive
      rw [assocFind_insert_self]
      exact decide_eq_true hlt
    simp [processWatchSub, hbm, hact]
  · intro t₃ sendOk₃ A hle hdnd3
    have hact : cooldownActive
        (assocInsert (sub.user_id, sub.player_name) (t.stamp + 15) cooldowns)
        (sub.user_id, sub.player_name) t₃ = false := by
      unfold cooldownActive
      rw [assocFind_insert_self]
      exact decide_eq_false (not_lt.mpr hle)
    simp only [processWatchSub, hb, Bool.false_eq_true, if_false, hact,
      hdnd3]
    cases hs3 : sendOk₃ sub.user_id sub.player_name <;> simp [hs3]

/-- Witness for C7: a concrete successful watchlist delivery at `t = 0`
records a cooldown expiring at minute 15. -/
theorem C7_watchlist_cooldown_witness :
    processWatchSub [] [("Ace", "S")] ⟨0, 0, 0⟩ (fun _ _ => true)
        ([], []) ⟨7, "Ace", none⟩ =
      ([] ++ [⟨7, "Ace",
          (assocFind "Ace" [("Ace", "S")]).getD ("Unknown Server")⟩],
        assocInsert ((7 : Int), "Ace") ((0 : Int) + 15) []) :=
  (C7_watchlist_cooldown [] [("Ace", "S")] [] [] ⟨7, "Ace", none⟩ ⟨0, 0, 0⟩
    (fun _ _ => true) (by decide) (by decide) (by decide) rfl).1

/-- C8 fails as stated: a watchlist pass on which nobody just joined
returns before the purge, so an already-expired cooldown entry
(expiry 10, now 20) survives that tick. -/
theorem C8_counterexample :
    (((1 : Int), "Ace"), (10 : Int)) ∈
        (check_watchlist ["Bob"] [(((1 : Int), "Ace"), (10 : Int))]
          [("Bob", "S")] [] [] [] ⟨20, 0, 0⟩ (fun _ _ => true)).2.2 ∧
      (20 : Int) > 10 := by
  decide

/-- C8 (amended): on every watchlist pass that reaches the alerting phase
(at least one just-joined player, so the body does not return early),
every cooldown entry whose expiry is strictly in the past is removed from
the cooldown map by the end of the pass. -/
theorem C8_cooldown_purge (previously_online : List String)
    (cooldowns : List ((Int × String) × Int))
    (onlineRows : List (String × String)) (watchTable : List (Int × String))
    (dnds : List (Int × DndRule)) (blocked : List Int) (now : UtcTime)
    (sendOk : Int → String → Bool)
    (h : justJoinedNames previously_online (currentOnlineNames onlineRows) ≠
      []) :
    ∀ kv ∈ (check_watchlist previously_online cooldowns onlineRows
        watchTable dnds blocked now sendOk).2.2,
      ¬(now.stamp > kv.2) := by
  intro kv hkv
  have hne : (justJoinedNames previously_online
      (currentOnlineNames onlineRows)).isEmpty = false := by
    cases hj : justJoinedNames previously_online
        (currentOnlineNames onlineRows) with
    | nil => exact absurd hj h
    | cons a l => rfl
  simp only [check_watchlist, hne, Bool.false_eq_true, if_false] at hkv
  have hp := (List.mem_filter.mp hkv).2
  rw [Bool.not_eq_true'] at hp
  exact of_decide_eq_false hp

/-- Witness for C8: on a pass where "Ace" just joined, a live entry
(expiry 200 at minute 100) is kept, and the amended theorem applies. -/
theorem C8_cooldown_purge_witness : ¬((100 : Int) > (200 : Int)) :=
  C8_cooldown_purge ["Bob"] [(((1 : Int), "X"), (200 : Int))] [("Ace", "S")]
    [] [] [] ⟨100, 0, 0⟩ (fun _ _ => true) (by decide)
    (((1 : Int), "X"), (200 : Int)) (by decide)

/-- `find?` over a conditional replacement map: when some element matches,
the first match is replaced by `row` and found, provided `row` matches. -/
theorem find?_replace_of_any (p : Subscription → Bool) (row : Subscription)
    (hrow : p row = true) :
    ∀ l : List Subscription, l.any p = true →
      (l.map (fun s => if p s then row else s)).find? p = some row := by
  intro l
  induction l with
  | nil => intro h; exact absurd h (by simp)
  | cons hd tl ih =>
    intro h
    rw [List.map_cons]
    by_cases hph : p hd = true
    · rw [if_pos hph]
      exact List.find?_cons_of_pos _ hrow
    · have hph' : p hd = false := Bool.eq_false_iff.mpr hph
      rw [if_neg hph, List.find?_cons_of_neg _ hph]
      rw [List.any_cons, Bool.or_eq_true] at h
      rcases h with h1 | h2
      · exact absurd h1 hph
      · exact ih h2

/-- C9: upserting a subscription whose `(subscriber, server, map)` key
already exists overwrites `players_over`, `guild_id` and `channel_id` and
resets `is_paused` to false — in particular it silently unpauses a
subscription paused via the pause operation. -/
theorem C9_upsert_unpauses (table : List Subscription) (u : Int)
    (server map_name : String) (p g : Int) (c : Option Int) :
    ((∃ s ∈ table, subKeyMatches u server map_name s = true) →
      findSubscription (upsert_subscription table u server map_name p g c)
          u server map_name =
        some ⟨u, server, map_name, p, g, c, false⟩) ∧
    ((∃ s ∈ table, subKeyMatches u server map_name s = true) →
      findSubscription
          (upsert_subscription (set_subscription_paused table u true)
            u server map_name p g c) u server map_name =
        some ⟨u, server, map_name, p, g, c, false⟩) := by
  have hrow : subKeyMatches u server map_name
      ⟨u, server, map_name, p, g, c, false⟩ = true := by
    simp [subKeyMatches]
  have main : ∀ tbl : List Subscription,
      (∃ s ∈ tbl, subKeyMatches u server map_name s = true) →
      findSubscription (upsert_subscription tbl u server map_name p g c)
          u server map_name =
        some ⟨u, server, map_name, p, g, c, false⟩ := by
    intro tbl hex
    have hany : tbl.any (subKeyMatches u server map_name) = true := by
      rcases hex with ⟨s0, hs0, hk⟩
      rw [List.any_eq_true]
      exact ⟨s0, hs0, hk⟩
    unfold upsert_subscription findSubscription
    rw [if_pos hany]
    exact find?_replace_of_any _ _ hrow tbl hany
  refine ⟨main table, fun hex => main _ ?_⟩
  rcases hex with ⟨s0, hs0, hk⟩
  have hpres : subKeyMatches u server map_name
      (if (s0.user_id == u) = true then { s0 with is_paused := true }
        else s0) = true := by
    split
    · simp only [subKeyMatches] at hk ⊢
      exact hk
    · exact hk
  exact ⟨_, List.mem_map_of_mem _ hs0, hpres⟩

/-- Witness for C9: a concrete paused subscription is unpaused and
overwritten by a re-subscribe to the same server and map. -/
theorem C9_upsert_unpauses_witness :
    findSubscription
        (upsert_subscription
          (set_subscription_paused [⟨5, "S", "m", 1, 2, none, false⟩] 5 true)
          5 "S" "m" 9 77 (some 3)) 5 "S" "m" =
      some ⟨5, "S", "m", 9, 77, some 3, false⟩ :=
  (C9_upsert_unpauses [⟨5, "S", "m", 1, 2, none, false⟩] 5 "S" "m" 9 77
    (some 3)).2 ⟨⟨5, "S", "m", 1, 2, none, false⟩, by decide, by decide⟩

/-- C10: in the watchlist per-subscriber step, when the DM send raises,
the delivery attempt is made but no cooldown entry is written and the
cooldown map is unchanged, so a later join event for the same pair
(still outside cooldown and DND) produces another delivery attempt. -/
theorem C10_cooldown_only_after_send (blocked : List Int)
    (cur : List (String × String)) (cooldowns : List ((Int × String) × Int))
    (attempts : List WatchAttempt) (sub : WatchSubRow) (t : UtcTime)
    (sendOk : Int → String → Bool)
    (hb : blocked.contains sub.user_id = false)
    (hcd : cooldownActive cooldowns (sub.user_id, sub.player_name) t = false)
    (hdnd : watchlistDndSkip sub.dnd t = false)
    (hsend : sendOk sub.user_id sub.player_name = false) :
    (processWatchSub blocked cur t sendOk (attempts, cooldowns) sub =
      (attempts ++ [⟨sub.user_id, sub.player_name,
          (assocFind sub.player_name cur).getD ("Unknown Server")⟩],
        cooldowns)) ∧
    (∀ (t₂ : UtcTime) (sendOk₂ : Int → String → Bool)
        (A : List WatchAttempt),
      cooldownActive cooldowns (sub.user_id, sub.player_name) t₂ = false →
      watchlistDndSkip sub.dnd t₂ = false →
      (processWatchSub blocked cur t₂ sendOk₂ (A, cooldowns) sub).1 =
        A ++ [⟨sub.user_id, sub.player_name,
          (assocFind sub.player_name cur).getD ("Unknown Server")⟩]) := by
  have hbm : sub.user_id ∉ blocked := by simpa using hb
  constructor
  · simp [processWatchSub, hbm, hcd, hdnd, hsend]
  · intro t₂ sendOk₂ A hcd2 hdnd2
    simp only [processWatchSub, hb, Bool.false_eq_true, if_false, hcd2,
      hdnd2]
    cases hs2 : sendOk₂ sub.user_id sub.player_name <;> simp [hs2]

/-- Witness for C10: a concrete failed DM leaves the cooldown map empty
and the attempt recorded. -/
theorem C10_cooldown_only_after_send_witness :
    processWatchSub [] [("Ace", "S")] ⟨0, 0, 0⟩ (fun _ _ => false)
        ([], []) ⟨7, "Ace", none⟩ =
      ([] ++ [⟨7, "Ace",
          (assocFind "Ace" [("Ace", "S")]).getD ("Unknown Server")⟩],
        []) :=
  (C10_cooldown_only_after_send [] [("Ace", "S")] [] [] ⟨7, "Ace", none⟩
    ⟨0, 0, 0⟩ (fun _ _ => false) (by decide) (by decide) (by decide) rfl).1

end BF1942
